import Mathlib

/-!
# Matricks (src/mt.cpp): board, cursor and move logic

A shallow embedding of the game logic of `src/mt.cpp`:
`clamp`, `moveCursor`, `boardsEqual`, `randomizeBoard`, `handleKey` and the body of
the `while(1)` loop of `main`.

Conventions of the embedding.

* `int` is the 16-bit two's-complement integer of Turbo C++; values are `Int`, and the
  results of `+`, `++` and `--` go through `wrap16`.
* `byte` is `unsigned char`; a cell is a `Nat`, and a store of an `int` expression into a
  `byte` goes through `toByte` (reduction modulo 256).
* `byte leftboard[36], rightboard[36];` (line 74) are two `List Nat`; the theorems assume
  both have length 36. `moveCursor` has no bounds test, and the arrays lie one after
  the other in the data segment of the Turbo C++ small-model build, so an access
  `leftboard[i]` with `36 ≤ i < 72` addresses `rightboard[i - 36]` (`readLeft`,
  `writeLeft`). An index that addresses neither array gives `none`; the cursors the loop
  of `main` can reach are 0..41, so this never happens in a run of the program.
* The global variables `leftboard`, `rightboard`, `cursor` and `moves` are the fields of
  `State`. `moveCursor` is only ever called with `&cursor`, so `*cursor` is `State.cursor`.
-/

namespace Matricks

/-- The value of a 16-bit two's-complement `int` holding the mathematical result `x`. -/
def wrap16 (x : Int) : Int := (x + 32768) % 65536 - 32768

/-- Conversion of an `int` value to `byte` (`unsigned char`): reduction modulo 256. -/
def toByte (x : Int) : Nat := (x % 256).toNat

/-- The global variables of mt.cpp that the game logic reads and writes
(lines 74, 77 and 80). -/
structure State where
  leftboard : List Nat
  rightboard : List Nat
  cursor : Int
  moves : Int
deriving DecidableEq

/-- The read `board[i]` with an `int` index: `none` when `i` is outside the array. -/
def peek (board : List Nat) (i : Int) : Option Nat :=
  if 0 ≤ i then board[i.toNat]? else none

/-- The write `board[i] = v` with an `int` index: `none` when `i` is outside the array. -/
def poke (board : List Nat) (i : Int) (v : Nat) : Option (List Nat) :=
  if 0 ≤ i ∧ i.toNat < board.length then some (board.set i.toNat v) else none

/-- Lines 241-245:
`if (m < l) m = l; else if (m > h) m = h; return m;` -/
def clamp (l m h : Int) : Int :=
  if m < l then l else if m > h then h else m

/-- Lines 225-231, the `switch (delta)` of `moveCursor`: the value of `*cursor` after it.
`%` on `int` truncates towards zero (`Int.tmod`). -/
def cursorAfter (cursor delta : Int) : Int :=
  if delta = 1 then
    (if Int.tmod cursor 6 < 5 then wrap16 (cursor + 1) else cursor)
  else if delta = -1 then
    (if Int.tmod cursor 6 > 0 then wrap16 (cursor - 1) else cursor)
  else clamp 0 (wrap16 (cursor + delta)) 36

/-- The read `leftboard[i]` as the program performs it, without a bounds test: for
`i < 36` the cell of `leftboard`, for `36 ≤ i` the byte `rightboard[i - 36]` of the array
declared right after it on line 74. `none` when `i` addresses neither array. -/
def readLeft (s : State) (i : Int) : Option Nat :=
  if i < 36 then peek s.leftboard i else peek s.rightboard (i - 36)

/-- The write `leftboard[i] = v` as the program performs it, without a bounds test;
returns the two arrays after the write. For `36 ≤ i` the byte written is
`rightboard[i - 36]`. `none` when `i` addresses neither array. -/
def writeLeft (s : State) (i : Int) (v : Nat) : Option (List Nat × List Nat) :=
  if i < 36 then
    match poke s.leftboard i v with
    | some lb => some (lb, s.rightboard)
    | none => none
  else
    match poke s.rightboard (i - 36) v with
    | some rb => some (s.leftboard, rb)
    | none => none

/-- Lines 223-238, `int moveCursor(int *cursor, int delta)` called with `&cursor`.
Returns the original cursor value and the new globals. The accesses `leftboard[*cursor]`
and `leftboard[oldcursor]` are `readLeft` and `writeLeft`; the result is `none` only
when one of them addresses neither board. -/
def moveCursor (s : State) (delta : Int) : Option (Int × State) :=
  let oldcursor := s.cursor
  let cursor := cursorAfter s.cursor delta
  match readLeft s cursor, readLeft s oldcursor with
  | some dst, some src =>
    if dst ≠ src then
      match writeLeft s cursor (toByte (3 - (src : Int) - (dst : Int))) with
      | some (lb, rb) => some (oldcursor, ⟨lb, rb, cursor, s.moves⟩)
      | none => none
    else some (oldcursor, ⟨s.leftboard, s.rightboard, cursor, s.moves⟩)
  | _, _ => none

/-- The library function `memcmp(a, b, n)`: compares the first `n` bytes; zero when they
all agree, otherwise the difference of the first pair that differs. `none` when one of
the arrays has fewer than `n` bytes. -/
def memcmp : List Nat → List Nat → Nat → Option Int
  | _, _, 0 => some 0
  | x :: xs, y :: ys, n + 1 => if x = y then memcmp xs ys n else some ((x : Int) - (y : Int))
  | _, _, _ + 1 => none

/-- Lines 249-251: `return !memcmp(a, b, 36);`, so 1 when the boards agree and 0 when
they do not. -/
def boardsEqual (a b : List Nat) : Option Int :=
  match memcmp a b 36 with
  | some r => some (if r = 0 then 1 else 0)
  | none => none

/-- Lines 158-160, the loop `for(int n = 0; n < 36; n++) board[n] = rand() % 3;` at
counter value `n` with `todo` iterations left (`n + todo = 36`). `rnd k` is the value
returned by the call of `rand()` made when the counter is `k`. -/
def randomizeFrom (rnd : Nat → Int) : Nat → Nat → List Nat → Option (List Nat)
  | 0, _, board => some board
  | todo + 1, n, board =>
    match poke board (n : Int) (toByte (Int.tmod (rnd n) 3)) with
    | some b => randomizeFrom rnd todo (n + 1) b
    | none => none

/-- Lines 158-160, `void randomizeBoard(byte *board)`. -/
def randomizeBoard (rnd : Nat → Int) (board : List Nat) : Option (List Nat) :=
  randomizeFrom rnd 36 0 board

/-- Lines 198-212, `int handleKey(int key)`. `ext` is the value the nested `getch()` of
line 201 returns; it is read only for an extended key (0 or 224).
The character constants are 'w' = 119, 's' = 115, 'a' = 97, 'd' = 100. -/
def handleKey (key ext : Int) : Int :=
  let key := if key = 0 ∨ key = 224 then ext else key
  if key = 119 ∨ key = 72 then -6
  else if key = 115 ∨ key = 80 then 6
  else if key = 97 ∨ key = 75 then -1
  else if key = 100 ∨ key = 77 then 1
  else 0

/-- How one pass through the `while(1)` loop of `main` ends: the loop goes round again,
or leaves through `gameover()`, or leaves through the quit key. -/
inductive Status where
  | running
  | won
  | quit
deriving DecidableEq

/-- Lines 93-107, one pass through the body of the `while(1)` loop of `main`. `k` is the
key returned by `getch()` on line 93 ('q' = 113, escape = 0x1b = 27) and `ext` the key
the nested `getch()` of `handleKey` returns. The drawing calls only read the state. -/
def mainLoop (s : State) (k ext : Int) : Option (State × Status) :=
  if k = 113 ∨ k = 27 then some (s, Status.quit)
  else
    let delta := handleKey k ext
    match moveCursor s delta with
    | none => none
    | some (oldcursor, s1) =>
      let s2 : State :=
        if s1.cursor ≠ oldcursor then
          ⟨s1.leftboard, s1.rightboard, s1.cursor, wrap16 (s1.moves + 1)⟩
        else s1
      match boardsEqual s2.leftboard s2.rightboard with
      | some r => if r ≠ 0 then some (s2, Status.won) else some (s2, Status.running)
      | none => none

/-- The board predicate of the data model: exactly 36 cells, each in {0,1,2}. -/
def validBoard (board : List Nat) : Prop :=
  board.length = 36 ∧ ∀ v ∈ board, v ≤ 2

instance (board : List Nat) : Decidable (validBoard board) := by
  unfold validBoard; infer_instance

/-! ## Sample states used to instantiate the theorems -/

/-- A state used to instantiate the theorems: the cursor is on cell 16 (colour 0), cell 17
has colour 1, every other cell of the left board has colour 0, and the right board is
all 0. -/
def sampleState : State :=
  ⟨(List.replicate 36 0).set 17 1, List.replicate 36 0, 16, 0⟩

/-- A state with the cursor on cell 30, the first cell of the bottom row; the left board
is all 0 and the right board all 1. -/
def bottomRowState : State :=
  ⟨List.replicate 36 0, List.replicate 36 1, 30, 0⟩

/-- A state with the cursor on cell 5, the end of row 0, on the boards of
`sampleState`. -/
def rowEndState : State :=
  ⟨(List.replicate 36 0).set 17 1, List.replicate 36 0, 5, 0⟩

/-- A pair of boards equal except at index 17, where the right board already holds the
third colour 2, with the cursor on cell 18 (colour 0), the first cell of row 3. -/
def wrapState : State :=
  ⟨(List.replicate 36 0).set 17 1, (List.replicate 36 0).set 17 2, 18, 0⟩

/-! ## Auxiliary lemmas -/

theorem wrap16_id (x : Int) (h1 : -32768 ≤ x) (h2 : x ≤ 32767) : wrap16 x = x := by
  unfold wrap16; omega

theorem tmod_six (c : Int) (h : 0 ≤ c) : Int.tmod c 6 = c % 6 := by
  rw [Int.tmod_eq_emod h (by decide)]

theorem wrap16_range (x : Int) : -32768 ≤ wrap16 x ∧ wrap16 x ≤ 32767 := by
  unfold wrap16; omega

theorem clamp_range (m : Int) : 0 ≤ clamp 0 m 36 ∧ clamp 0 m 36 ≤ 36 := by
  unfold clamp; split_ifs <;> omega

theorem cursorAfter_range (c delta : Int) (h0 : 0 ≤ c) (h1 : c ≤ 35) :
    0 ≤ cursorAfter c delta ∧ cursorAfter c delta ≤ 36 := by
  unfold cursorAfter
  split_ifs with h1 h2 h3 h4
  · rw [wrap16_id _ (by omega) (by omega)]; omega
  · omega
  · rw [tmod_six c h0] at h4
    rw [wrap16_id _ (by omega) (by omega)]; omega
  · omega
  · exact clamp_range _

theorem peek_of_lt (b : List Nat) (i : Int) (h0 : 0 ≤ i) (h1 : i < b.length) :
    ∃ v, peek b i = some v ∧ v ∈ b := by
  have hlt : i.toNat < b.length := by omega
  refine ⟨b[i.toNat], ?_, List.getElem_mem hlt⟩
  simp [peek, h0, hlt]

theorem peek_none_of_ge (b : List Nat) (i : Int) (h1 : (b.length : Int) ≤ i) :
    peek b i = none := by
  unfold peek
  split_ifs with h
  · simp; omega
  · rfl

theorem peek_some_lt (b : List Nat) (i : Int) (v : Nat) (h : peek b i = some v) :
    0 ≤ i ∧ i.toNat < b.length := by
  unfold peek at h
  split_ifs at h with h0
  refine ⟨h0, ?_⟩
  by_contra hc
  rw [List.getElem?_eq_none (by omega)] at h
  exact Option.noConfusion h

theorem moveCursor_eq (s : State) (delta : Int) (src dst : Nat)
    (hlen : s.leftboard.length = 36)
    (hd : peek s.leftboard (cursorAfter s.cursor delta) = some dst)
    (hs : peek s.leftboard s.cursor = some src) :
    moveCursor s delta = some (s.cursor,
      ⟨if dst ≠ src then
          s.leftboard.set (cursorAfter s.cursor delta).toNat (toByte (3 - (src : Int) - (dst : Int)))
        else s.leftboard,
       s.rightboard, cursorAfter s.cursor delta, s.moves⟩) := by
  have hb := peek_some_lt _ _ _ hd
  have hc := peek_some_lt _ _ _ hs
  have hn36 : cursorAfter s.cursor delta < 36 := by omega
  have hc36 : s.cursor < 36 := by omega
  unfold moveCursor
  simp only [readLeft, hn36, hc36, if_true, hd, hs]
  by_cases hne : dst = src
  · simp [hne]
  · simp [hne, writeLeft, hn36, poke, hb]

theorem peek_set_self (b : List Nat) (i : Int) (v : Nat) (h0 : 0 ≤ i)
    (h1 : i < b.length) : peek (b.set i.toNat v) i = some v := by
  have hlt : i.toNat < b.length := by omega
  simp [peek, h0, hlt]

theorem toByte_third (x y : Nat) (hx : x ≤ 2) (hy : y ≤ 2) (hxy : y ≠ x) :
    ((toByte (3 - (x : Int) - (y : Int)) : Nat) : Int) = 3 - (x : Int) - (y : Int) ∧
    toByte (3 - (x : Int) - (y : Int)) ≤ 2 ∧
    toByte (3 - (x : Int) - (y : Int)) ≠ x ∧
    toByte (3 - (x : Int) - (y : Int)) ≠ y ∧
    ∀ w, w ≤ 2 → w ≠ x → w ≠ y → w = toByte (3 - (x : Int) - (y : Int)) := by
  interval_cases x <;> interval_cases y <;> simp_all [toByte] <;> omega

theorem cursorAfter_right (c : Int) (h0 : 0 ≤ c) (h1 : c ≤ 35) :
    cursorAfter c 1 = if c % 6 = 5 then c else c + 1 := by
  unfold cursorAfter
  rw [tmod_six c h0, wrap16_id (c + 1) (by omega) (by omega)]
  simp only [if_true]
  split_ifs <;> omega

theorem cursorAfter_left (c : Int) (h0 : 0 ≤ c) (h1 : c ≤ 35) :
    cursorAfter c (-1) = if c % 6 = 0 then c else c - 1 := by
  unfold cursorAfter
  rw [tmod_six c h0, wrap16_id (c - 1) (by omega) (by omega)]
  simp only [show ((-1 : Int) = 1) = False from by decide, if_false, if_true]
  split_ifs <;> omega

theorem cursorAfter_vertical (c delta : Int) (h0 : 0 ≤ c) (h1 : c ≤ 35)
    (hd : delta = -6 ∨ delta = 6) : cursorAfter c delta = clamp 0 (c + delta) 36 := by
  unfold cursorAfter
  rw [wrap16_id (c + delta) (by omega) (by omega)]
  rcases hd with rfl | rfl <;> simp

/-- C1 (third-colour rule). For a left board of 36 cells with values in {0,1,2}, a cursor
`c` in [0,35] and a delta in {-6,+6,-1,+1}: when the cursor `n` computed by `moveCursor`
differs from `c`, lies in [0,35] and `board[n] != board[c]` before the call, the call
returns, the new cursor is `n`, and the cell `board[n]` afterwards is
`3 - board[c] - board[n]` (pre-move values), the unique element of {0,1,2} different from
both pre-move colours. -/
theorem C1_third_colour_rule (s : State) (delta : Int)
    (hv : validBoard s.leftboard) (h0 : 0 ≤ s.cursor) (h1 : s.cursor ≤ 35)
    (_hdelta : delta = -6 ∨ delta = 6 ∨ delta = -1 ∨ delta = 1)
    (_hne : cursorAfter s.cursor delta ≠ s.cursor)
    (hin : 0 ≤ cursorAfter s.cursor delta ∧ cursorAfter s.cursor delta ≤ 35)
    (hcol : peek s.leftboard (cursorAfter s.cursor delta) ≠ peek s.leftboard s.cursor) :
    ∃ s' x y v, moveCursor s delta = some (s.cursor, s') ∧
      s'.cursor = cursorAfter s.cursor delta ∧
      peek s.leftboard s.cursor = some x ∧
      peek s.leftboard (cursorAfter s.cursor delta) = some y ∧
      peek s'.leftboard s'.cursor = some v ∧
      (v : Int) = 3 - (x : Int) - (y : Int) ∧
      v ≤ 2 ∧ v ≠ x ∧ v ≠ y ∧ ∀ w, w ≤ 2 → w ≠ x → w ≠ y → w = v := by
  obtain ⟨hlen, hcells⟩ := hv
  obtain ⟨x, hx, hxmem⟩ := peek_of_lt s.leftboard s.cursor h0 (by omega)
  obtain ⟨y, hy, hymem⟩ := peek_of_lt s.leftboard (cursorAfter s.cursor delta) hin.1 (by omega)
  have hyx : y ≠ x := by
    intro h; apply hcol; rw [hx, hy, h]
  obtain ⟨t1, t2, t3, t4, t5⟩ := toByte_third x y (hcells x hxmem) (hcells y hymem) hyx
  refine ⟨_, x, y, toByte (3 - (x : Int) - (y : Int)), moveCursor_eq s delta x y hlen hy hx,
    rfl, hx, hy, ?_, t1, t2, t3, t4, t5⟩
  simp only [hyx, ne_eq, not_false_eq_true, if_true]
  exact peek_set_self _ _ _ hin.1 (by omega)

/-- Instance of C1: moving Right from cell 16 (colour 0) onto cell 17 (colour 1). -/
theorem C1_third_colour_rule_witness :
    ∃ s' x y v, moveCursor sampleState 1 = some (sampleState.cursor, s') ∧
      s'.cursor = cursorAfter sampleState.cursor 1 ∧
      peek sampleState.leftboard sampleState.cursor = some x ∧
      peek sampleState.leftboard (cursorAfter sampleState.cursor 1) = some y ∧
      peek s'.leftboard s'.cursor = some v ∧
      (v : Int) = 3 - (x : Int) - (y : Int) ∧
      v ≤ 2 ∧ v ≠ x ∧ v ≠ y ∧ ∀ w, w ≤ 2 → w ≠ x → w ≠ y → w = v :=
  C1_third_colour_rule sampleState 1 (by decide) (by decide) (by decide) (by decide)
    (by decide) (by decide) (by decide)

theorem moveCursor_in_range (s : State) (delta : Int) (hlen : s.leftboard.length = 36)
    (h0 : 0 ≤ s.cursor) (h1 : s.cursor ≤ 35) (hn : cursorAfter s.cursor delta ≤ 35) :
    ∃ src dst, peek s.leftboard s.cursor = some src ∧ src ∈ s.leftboard ∧
      peek s.leftboard (cursorAfter s.cursor delta) = some dst ∧ dst ∈ s.leftboard ∧
      moveCursor s delta = some (s.cursor,
        ⟨if dst ≠ src then
            s.leftboard.set (cursorAfter s.cursor delta).toNat
              (toByte (3 - (src : Int) - (dst : Int)))
          else s.leftboard,
         s.rightboard, cursorAfter s.cursor delta, s.moves⟩) := by
  have hr := cursorAfter_range s.cursor delta h0 h1
  obtain ⟨x, hx, hxm⟩ := peek_of_lt s.leftboard s.cursor h0 (by omega)
  obtain ⟨y, hy, hym⟩ := peek_of_lt s.leftboard (cursorAfter s.cursor delta) hr.1 (by omega)
  exact ⟨x, y, hx, hxm, hy, hym, moveCursor_eq s delta x y hlen hy hx⟩

theorem cursorAfter_reach (c delta : Int) (h0 : 0 ≤ c) (h1 : c ≤ 41) :
    0 ≤ cursorAfter c delta ∧ cursorAfter c delta ≤ 41 := by
  unfold cursorAfter
  split_ifs with h1 h2 h3 h4
  · rw [tmod_six c h0] at h2
    rw [wrap16_id _ (by omega) (by omega)]; omega
  · omega
  · rw [tmod_six c h0] at h4
    rw [wrap16_id _ (by omega) (by omega)]; omega
  · omega
  · have := clamp_range (wrap16 (c + delta))
    omega

theorem readLeft_some (s : State) (i : Int) (hl : s.leftboard.length = 36)
    (hr : s.rightboard.length = 36) (h0 : 0 ≤ i) (h1 : i ≤ 71) :
    ∃ v, readLeft s i = some v := by
  unfold readLeft
  split_ifs with h
  · obtain ⟨v, hv, -⟩ := peek_of_lt s.leftboard i h0 (by omega)
    exact ⟨v, hv⟩
  · obtain ⟨v, hv, -⟩ := peek_of_lt s.rightboard (i - 36) (by omega) (by omega)
    exact ⟨v, hv⟩

theorem writeLeft_some (s : State) (i : Int) (v : Nat) (hl : s.leftboard.length = 36)
    (hr : s.rightboard.length = 36) (h0 : 0 ≤ i) (h1 : i ≤ 71) :
    ∃ lb rb, writeLeft s i v = some (lb, rb) ∧ lb.length = 36 ∧ rb.length = 36 ∧
      (36 ≤ i → lb = s.leftboard) ∧ (i < 36 → rb = s.rightboard) := by
  unfold writeLeft
  split_ifs with h
  · have hp : poke s.leftboard i v = some (s.leftboard.set i.toNat v) := by
      unfold poke
      rw [if_pos ⟨h0, by omega⟩]
    rw [hp]
    exact ⟨_, _, rfl, by rw [List.length_set]; exact hl, hr, fun h36 => by omega,
      fun _ => rfl⟩
  · have hp : poke s.rightboard (i - 36) v = some (s.rightboard.set (i - 36).toNat v) := by
      unfold poke
      rw [if_pos ⟨by omega, by omega⟩]
    rw [hp]
    exact ⟨_, _, rfl, hl, by rw [List.length_set]; exact hr, fun _ => rfl,
      fun h36 => by omega⟩

theorem moveCursor_defined (s : State) (delta : Int) (hl : s.leftboard.length = 36)
    (hr : s.rightboard.length = 36) (h0 : 0 ≤ s.cursor) (h1 : s.cursor ≤ 41) :
    ∃ s', moveCursor s delta = some (s.cursor, s') ∧
      s'.cursor = cursorAfter s.cursor delta ∧ s'.moves = s.moves ∧
      s'.leftboard.length = 36 ∧ s'.rightboard.length = 36 ∧
      (cursorAfter s.cursor delta = s.cursor → s' = s) ∧
      (36 ≤ cursorAfter s.cursor delta → s'.leftboard = s.leftboard) := by
  have hn := cursorAfter_reach s.cursor delta h0 h1
  obtain ⟨dst, hd⟩ := readLeft_some s (cursorAfter s.cursor delta) hl hr hn.1 (by omega)
  obtain ⟨src, hs⟩ := readLeft_some s s.cursor hl hr h0 (by omega)
  by_cases hne : dst = src
  · refine ⟨⟨s.leftboard, s.rightboard, cursorAfter s.cursor delta, s.moves⟩, ?_, rfl, rfl,
      hl, hr, ?_, fun _ => rfl⟩
    · simp [moveCursor, hd, hs, hne]
    · intro hc
      rw [hc]
  · obtain ⟨lb, rb, hw, hlb, hrb, hkeep, -⟩ := writeLeft_some s (cursorAfter s.cursor delta)
      (toByte (3 - (src : Int) - (dst : Int))) hl hr hn.1 (by omega)
    refine ⟨⟨lb, rb, cursorAfter s.cursor delta, s.moves⟩, ?_, rfl, rfl, hlb, hrb, ?_, hkeep⟩
    · simp [moveCursor, hd, hs, hne, hw]
    · intro hc
      rw [hc, hs] at hd
      exact absurd (Option.some.inj hd).symm hne

/-- C2 (cursor range), evaluated on the code: with delta +6 (Down) the `switch` of
`moveCursor` takes each of the bottom-row cursors 30..35 to 36, which is not an index of
the 36-cell board. -/
theorem C2_down_from_bottom_row_gives_36 :
    [30, 31, 32, 33, 34, 35].map (fun c => cursorAfter c 6) = [36, 36, 36, 36, 36, 36] := by
  decide

/-- C3 (vertical clamp), evaluated on the code: Up from 0 leaves the cursor at 0, but
Down from 35 sets the cursor to `clamp(0, 41, 36) = 36`, whereas `clamp(0, 41, 35)` is
35; likewise Down from 30 gives 36. -/
theorem C3_down_from_35_gives_36 :
    cursorAfter 0 (-6) = 0 ∧ cursorAfter 35 6 = 36 ∧ clamp 0 (35 + 6) 35 = 35 ∧
      cursorAfter 30 6 = 36 ∧ clamp 0 (30 + 6) 35 = 35 := by
  decide

/-- C4 (horizontal clamp). For a cursor `c` in [0,35] on a 36-cell left board:
`moveCursor` with delta -1 returns and leaves the cursor at `c` when `c % 6 == 0` and
otherwise sets it to `c - 1`; with delta +1 it returns and leaves the cursor at `c` when
`c % 6 == 5` and otherwise sets it to `c + 1`; the new cursor is in the same row, and at
a row edge the whole state, in particular the left board, is unchanged. -/
theorem C4_horizontal_clamp (s : State) (hlen : s.leftboard.length = 36)
    (h0 : 0 ≤ s.cursor) (h1 : s.cursor ≤ 35) :
    (∃ s', moveCursor s (-1) = some (s.cursor, s') ∧
      s'.cursor = (if s.cursor % 6 = 0 then s.cursor else s.cursor - 1) ∧
      s'.cursor / 6 = s.cursor / 6 ∧
      (s.cursor % 6 = 0 → s'.leftboard = s.leftboard ∧ s' = s)) ∧
    (∃ s', moveCursor s 1 = some (s.cursor, s') ∧
      s'.cursor = (if s.cursor % 6 = 5 then s.cursor else s.cursor + 1) ∧
      s'.cursor / 6 = s.cursor / 6 ∧
      (s.cursor % 6 = 5 → s'.leftboard = s.leftboard ∧ s' = s)) := by
  have hl := cursorAfter_left s.cursor h0 h1
  have hr := cursorAfter_right s.cursor h0 h1
  constructor
  · obtain ⟨x, y, hx, -, hy, -, hm⟩ :=
      moveCursor_in_range s (-1) hlen h0 h1 (by rw [hl]; split_ifs <;> omega)
    refine ⟨_, hm, hl, ?_, ?_⟩
    · show cursorAfter s.cursor (-1) / 6 = s.cursor / 6
      rw [hl]; split_ifs <;> omega
    · intro he
      have hc : cursorAfter s.cursor (-1) = s.cursor := by rw [hl, if_pos he]
      rw [hc, hx] at hy
      have hyx : y = x := (Option.some.inj hy).symm
      simp [hyx, hc]
  · obtain ⟨x, y, hx, -, hy, -, hm⟩ :=
      moveCursor_in_range s 1 hlen h0 h1 (by rw [hr]; split_ifs <;> omega)
    refine ⟨_, hm, hr, ?_, ?_⟩
    · show cursorAfter s.cursor 1 / 6 = s.cursor / 6
      rw [hr]; split_ifs <;> omega
    · intro he
      have hc : cursorAfter s.cursor 1 = s.cursor := by rw [hr, if_pos he]
      rw [hc, hx] at hy
      have hyx : y = x := (Option.some.inj hy).symm
      simp [hyx, hc]

/-- Instance of C4 (end-to-end scenario 3): cursor at index 5, the end of row 0. -/
theorem C4_horizontal_clamp_witness :
    (∃ s', moveCursor rowEndState (-1) = some (rowEndState.cursor, s') ∧
      s'.cursor = (if rowEndState.cursor % 6 = 0 then rowEndState.cursor
        else rowEndState.cursor - 1) ∧
      s'.cursor / 6 = rowEndState.cursor / 6 ∧
      (rowEndState.cursor % 6 = 0 → s'.leftboard = rowEndState.leftboard ∧ s' = rowEndState)) ∧
    (∃ s', moveCursor rowEndState 1 = some (rowEndState.cursor, s') ∧
      s'.cursor = (if rowEndState.cursor % 6 = 5 then rowEndState.cursor
        else rowEndState.cursor + 1) ∧
      s'.cursor / 6 = rowEndState.cursor / 6 ∧
      (rowEndState.cursor % 6 = 5 → s'.leftboard = rowEndState.leftboard ∧ s' = rowEndState)) :=
  C4_horizontal_clamp rowEndState (by decide) (by decide) (by decide)

/-- C5 (no-op resolution). For a 36-cell left board, a cursor `c` in [0,35] and any
delta: if the cursor `n` computed by `moveCursor` equals `c`, or `board[n] == board[c]`
before the call, then the call returns and the whole left board after the call is
identical to the board before the call. -/
theorem C5_noop_resolution (s : State) (delta : Int) (hlen : s.leftboard.length = 36)
    (h0 : 0 ≤ s.cursor) (h1 : s.cursor ≤ 35)
    (h : cursorAfter s.cursor delta = s.cursor ∨
      peek s.leftboard (cursorAfter s.cursor delta) = peek s.leftboard s.cursor) :
    ∃ s', moveCursor s delta = some (s.cursor, s') ∧
      s'.cursor = cursorAfter s.cursor delta ∧ s'.leftboard = s.leftboard := by
  obtain ⟨x, hx, -⟩ := peek_of_lt s.leftboard s.cursor h0 (by omega)
  have hy : peek s.leftboard (cursorAfter s.cursor delta) = some x := by
    rcases h with h | h
    · rw [h, hx]
    · rw [h, hx]
  refine ⟨_, moveCursor_eq s delta x x hlen hy hx, rfl, ?_⟩
  simp

/-- Instance of C5: Left from cell 16 onto cell 15, both of colour 0. -/
theorem C5_noop_resolution_witness :
    ∃ s', moveCursor sampleState (-1) = some (sampleState.cursor, s') ∧
      s'.cursor = cursorAfter sampleState.cursor (-1) ∧
      s'.leftboard = sampleState.leftboard :=
  C5_noop_resolution sampleState (-1) (by decide) (by decide) (by decide)
    (Or.inr (by decide))

theorem moveCursor_frame (s : State) (delta : Int) (hlen : s.leftboard.length = 36)
    (h0 : 0 ≤ s.cursor) (h1 : s.cursor ≤ 35) (hn : cursorAfter s.cursor delta ≤ 35) :
    ∃ s', moveCursor s delta = some (s.cursor, s') ∧
      s'.rightboard = s.rightboard ∧ s'.moves = s.moves ∧ s'.leftboard.length = 36 ∧
      ∀ i : Nat, (i : Int) ≠ cursorAfter s.cursor delta →
        s'.leftboard[i]? = s.leftboard[i]? := by
  obtain ⟨x, y, -, -, -, -, hm⟩ := moveCursor_in_range s delta hlen h0 h1 hn
  have hr := cursorAfter_range s.cursor delta h0 h1
  refine ⟨_, hm, rfl, rfl, ?_, ?_⟩
  · show (if y ≠ x then _ else _ : List Nat).length = 36
    split_ifs <;> simp [hlen]
  · intro i hi
    show (if y ≠ x then _ else _ : List Nat)[i]? = _
    split_ifs
    · exact List.getElem?_set_ne (fun h => hi (by omega))
    · rfl

/-- C6 (frame of a move), evaluated on the code: from cursor 30 with delta +6 the new
cursor is 36, which is not a cell of the left board; lines 233-234 compare
`leftboard[36]`, the byte `rightboard[0]` (colour 1), with `leftboard[30]` (colour 0)
and store the third colour 2 there, so the call changes cell 0 of the right board and no
cell of the left board. -/
theorem C6_down_from_30_writes_rightboard :
    cursorAfter bottomRowState.cursor 6 = 36 ∧
      bottomRowState.leftboard.length = 36 ∧
      peek bottomRowState.leftboard (cursorAfter bottomRowState.cursor 6) = none ∧
      peek bottomRowState.rightboard 0 = some 1 ∧
      moveCursor bottomRowState 6 =
        some (30, ⟨List.replicate 36 0, (List.replicate 36 1).set 0 2, 36, 0⟩) := by
  decide

theorem toByte_rand (r : Int) (h : 0 ≤ r) : toByte (Int.tmod r 3) ≤ 2 := by
  rw [Int.tmod_eq_emod h (by decide)]
  unfold toByte
  omega

theorem randomizeFrom_spec (rnd : Nat → Int) (hrnd : ∀ k, 0 ≤ rnd k) :
    ∀ (todo n : Nat) (board : List Nat), n + todo ≤ board.length →
      (∀ i v, i < n → board[i]? = some v → v ≤ 2) →
      ∃ b, randomizeFrom rnd todo n board = some b ∧ b.length = board.length ∧
        ∀ i v, i < n + todo → b[i]? = some v → v ≤ 2 := by
  intro todo
  induction todo with
  | zero =>
    intro n board _ hinv
    exact ⟨board, rfl, rfl, fun i v hi hv => hinv i v (by omega) hv⟩
  | succ todo ih =>
    intro n board hlen hinv
    have hn : n < board.length := by omega
    have hp : poke board (n : Int) (toByte (Int.tmod (rnd n) 3)) =
        some (board.set n (toByte (Int.tmod (rnd n) 3))) := by
      simp [poke, hn]
    obtain ⟨b, hb, hbl, hbv⟩ := ih (n + 1) (board.set n (toByte (Int.tmod (rnd n) 3)))
      (by rw [List.length_set]; omega)
      (by
        intro i v hi hv
        by_cases hin : n = i
        · subst hin
          rw [List.getElem?_set_self hn] at hv
          rw [← Option.some.inj hv]
          exact toByte_rand _ (hrnd _)
        · rw [List.getElem?_set_ne hin] at hv
          exact hinv i v (by omega) hv)
    refine ⟨b, ?_, ?_, ?_⟩
    · simp only [randomizeFrom, hp]
      exact hb
    · rw [hbl, List.length_set]
    · intro i v hi hv
      exact hbv i v (by omega) hv

theorem randomizeBoard_valid (rnd : Nat → Int) (board : List Nat) (hlen : board.length = 36)
    (hrnd : ∀ k, 0 ≤ rnd k) : ∃ b, randomizeBoard rnd board = some b ∧ validBoard b := by
  obtain ⟨b, hb, hbl, hbv⟩ := randomizeFrom_spec rnd hrnd 36 0 board (by omega)
    (fun i v hi _ => absurd hi (Nat.not_lt_zero i))
  refine ⟨b, hb, by rw [hbl, hlen], ?_⟩
  intro v hv
  obtain ⟨i, hi, hiv⟩ := List.getElem_of_mem hv
  have hi36 : i < 36 := by omega
  exact hbv i v (by omega) (by rw [List.getElem?_eq_getElem hi, hiv])

theorem moveCursor_valid (s : State) (delta : Int) (hv : validBoard s.leftboard)
    (h0 : 0 ≤ s.cursor) (h1 : s.cursor ≤ 35) (hn : cursorAfter s.cursor delta ≤ 35) :
    ∃ s', moveCursor s delta = some (s.cursor, s') ∧ validBoard s'.leftboard := by
  obtain ⟨x, y, -, hxm, -, hym, hm⟩ := moveCursor_in_range s delta hv.1 h0 h1 hn
  refine ⟨_, hm, ?_⟩
  by_cases hyx : y = x
  · simpa [hyx] using hv
  · simp only [ne_eq, hyx, not_false_eq_true, if_true]
    refine ⟨by rw [List.length_set]; exact hv.1, ?_⟩
    intro v hvm
    rcases List.mem_or_eq_of_mem_set hvm with h | h
    · exact hv.2 v h
    · rw [h]
      exact (toByte_third x y (hv.2 x hxm) (hv.2 y hym) hyx).2.1

/-- C7 (board invariant). (1) Called on a 36-cell array with a random source that returns
non-negative values, `randomizeBoard` returns a board of exactly 36 cells, each in
{0,1,2}. (2) For a left board satisfying that predicate (and the 36-byte `rightboard`
of line 74), a cursor `c` in [0,35] and any delta, the call of `moveCursor` returns the
old cursor and the left board satisfies the predicate again. -/
theorem C7_board_invariant :
    (∀ (rnd : Nat → Int) (board : List Nat), board.length = 36 → (∀ k, 0 ≤ rnd k) →
      ∃ b, randomizeBoard rnd board = some b ∧ validBoard b) ∧
    (∀ (s : State) (delta : Int), validBoard s.leftboard → s.rightboard.length = 36 →
      0 ≤ s.cursor → s.cursor ≤ 35 →
      ∃ s', moveCursor s delta = some (s.cursor, s') ∧ validBoard s'.leftboard) := by
  refine ⟨randomizeBoard_valid, ?_⟩
  intro s delta hv hr h0 h1
  by_cases hn : cursorAfter s.cursor delta ≤ 35
  · exact moveCursor_valid s delta hv h0 h1 hn
  · obtain ⟨s', hs', -, -, -, -, -, hkeep⟩ :=
      moveCursor_defined s delta hv.1 hr h0 (by omega)
    refine ⟨s', hs', ?_⟩
    rw [hkeep (by omega)]
    exact hv

/-- Instance of C7: a random source returning 0, 7, 14, ... on an array of 36 bytes of
value 9, and the move Down from cell 30 of `bottomRowState`, which takes the cursor to
36. -/
theorem C7_board_invariant_witness :
    (∃ b, randomizeBoard (fun k => (k : Int) * 7) (List.replicate 36 9) = some b ∧
      validBoard b) ∧
    (∃ s', moveCursor bottomRowState 6 = some (bottomRowState.cursor, s') ∧
      validBoard s'.leftboard) :=
  ⟨C7_board_invariant.1 (fun k => (k : Int) * 7) (List.replicate 36 9) (by decide)
      (fun k => by positivity),
   C7_board_invariant.2 bottomRowState 6 (by decide) (by decide) (by decide) (by decide)⟩

theorem memcmp_spec : ∀ (n : Nat) (a b : List Nat), n ≤ a.length → n ≤ b.length →
    ∃ r, memcmp a b n = some r ∧ (r = 0 ↔ a.take n = b.take n) := by
  intro n
  induction n with
  | zero =>
    intro a b _ _
    exact ⟨0, by simp [memcmp], by simp⟩
  | succ n ih =>
    intro a b ha hb
    cases a with
    | nil => simp at ha
    | cons x xs =>
      cases b with
      | nil => simp at hb
      | cons y ys =>
        simp only [List.length_cons, Nat.add_le_add_iff_right] at ha hb
        by_cases hxy : x = y
        · obtain ⟨r, hr, hiff⟩ := ih xs ys ha hb
          refine ⟨r, by simp [memcmp, hxy, hr], ?_⟩
          simp [List.take_succ_cons, hxy, hiff]
        · refine ⟨(x : Int) - (y : Int), by simp [memcmp, hxy], ?_⟩
          simp only [List.take_succ_cons, List.cons.injEq, hxy, false_and, iff_false]
          omega

theorem boardsEqual_spec (a b : List Nat) (ha : a.length = 36) (hb : b.length = 36) :
    ∃ r, boardsEqual a b = some r ∧ (r = 1 ∨ r = 0) ∧ (r ≠ 0 ↔ a = b) := by
  obtain ⟨m, hm, hiff⟩ := memcmp_spec 36 a b (by omega) (by omega)
  rw [List.take_of_length_le (by omega), List.take_of_length_le (by omega)] at hiff
  refine ⟨if m = 0 then 1 else 0, by simp [boardsEqual, hm], ?_, ?_⟩
  · split_ifs <;> simp
  · rw [← hiff]
    split_ifs with h <;> simp [h]

theorem boardsEqual_self (b : List Nat) (hb : b.length = 36) : boardsEqual b b = some 1 := by
  obtain ⟨r, hr, h01, hiff⟩ := boardsEqual_spec b b hb hb
  rcases h01 with h | h
  · rw [hr, h]
  · exact absurd h (hiff.mpr rfl)

theorem eq_iff_cells (a b : List Nat) (ha : a.length = 36) (hb : b.length = 36) :
    a = b ↔ ∀ i, i < 36 → a[i]? = b[i]? := by
  constructor
  · intro h i _
    rw [h]
  · intro h
    apply List.ext_getElem?
    intro i
    by_cases hi : i < 36
    · exact h i hi
    · rw [List.getElem?_eq_none (by omega), List.getElem?_eq_none (by omega)]

/-- C8 (win check). For two 36-cell boards `a` and `b`, `boardsEqual(a, b)` returns, and
its result is non-zero if and only if `a[i] == b[i]` for all `i` in 0..35; `boardsEqual(b,
b)` is 1 (true), and the result is 0 (false) whenever the boards differ in some cell. -/
theorem C8_win_check (a b : List Nat) (ha : a.length = 36) (hb : b.length = 36) :
    ∃ r, boardsEqual a b = some r ∧
      (r ≠ 0 ↔ ∀ i, i < 36 → a[i]? = b[i]?) ∧
      boardsEqual b b = some 1 ∧
      ((∃ i, i < 36 ∧ a[i]? ≠ b[i]?) → r = 0) := by
  obtain ⟨r, hr, -, hiff⟩ := boardsEqual_spec a b ha hb
  have hcells := eq_iff_cells a b ha hb
  refine ⟨r, hr, hiff.trans hcells, boardsEqual_self b hb, ?_⟩
  rintro ⟨i, hi, hne⟩
  by_contra hr0
  exact hne ((hcells.mp (hiff.mp hr0)) i hi)

/-- Instance of C8: the two boards of `sampleState`, which differ in cell 17. -/
theorem C8_win_check_witness :
    ∃ r, boardsEqual sampleState.leftboard sampleState.rightboard = some r ∧
      (r ≠ 0 ↔ ∀ i, i < 36 → sampleState.leftboard[i]? = sampleState.rightboard[i]?) ∧
      boardsEqual sampleState.rightboard sampleState.rightboard = some 1 ∧
      ((∃ i, i < 36 ∧ sampleState.leftboard[i]? ≠ sampleState.rightboard[i]?) → r = 0) :=
  C8_win_check sampleState.leftboard sampleState.rightboard (by decide) (by decide)

theorem mainLoop_spec (s : State) (k ext : Int)
    (hl : s.leftboard.length = 36) (hr : s.rightboard.length = 36)
    (h0 : 0 ≤ s.cursor) (h1 : s.cursor ≤ 41) (hq : k ≠ 113 ∧ k ≠ 27) :
    ∃ s' st, mainLoop s k ext = some (s', st) ∧
      s'.cursor = cursorAfter s.cursor (handleKey k ext) ∧
      s'.moves = (if s'.cursor ≠ s.cursor then wrap16 (s.moves + 1) else s.moves) ∧
      s'.leftboard.length = 36 ∧ s'.rightboard.length = 36 ∧
      (s'.cursor = s.cursor → s' = s) := by
  obtain ⟨s1, hm, hc1, hmv, hl1, hr1, hsame, -⟩ :=
    moveCursor_defined s (handleKey k ext) hl hr h0 h1
  by_cases hc : cursorAfter s.cursor (handleKey k ext) = s.cursor
  · have hs1 : s1 = s := hsame hc
    subst hs1
    obtain ⟨r, hbe, -, -⟩ := boardsEqual_spec s1.leftboard s1.rightboard hl hr
    have hcc : s1.cursor = s1.cursor := rfl
    by_cases hr0 : r = 0
    · refine ⟨s1, Status.running, ?_, hc1, by simp, hl, hr, fun _ => rfl⟩
      simp [mainLoop, hq.1, hq.2, hm, hbe, hr0]
    · refine ⟨s1, Status.won, ?_, hc1, by simp, hl, hr, fun _ => rfl⟩
      simp [mainLoop, hq.1, hq.2, hm, hbe, hr0]
  · have hne : s1.cursor ≠ s.cursor := by rw [hc1]; exact hc
    obtain ⟨r, hbe, -, -⟩ := boardsEqual_spec s1.leftboard s1.rightboard hl1 hr1
    by_cases hr0 : r = 0
    · refine ⟨⟨s1.leftboard, s1.rightboard, s1.cursor, wrap16 (s1.moves + 1)⟩,
        Status.running, ?_, hc1, by simp [hne, hmv], hl1, hr1, fun h => absurd h hne⟩
      simp [mainLoop, hq.1, hq.2, hm, hne, hbe, hr0]
    · refine ⟨⟨s1.leftboard, s1.rightboard, s1.cursor, wrap16 (s1.moves + 1)⟩,
        Status.won, ?_, hc1, by simp [hne, hmv], hl1, hr1, fun h => absurd h hne⟩
      simp [mainLoop, hq.1, hq.2, hm, hne, hbe, hr0]

/-- C9 as stated fails in two ways. (1) From the boards of `sampleState` with the cursor
on 16 and the counter at 32767, the key 'd' moves the cursor to 17, and `moves++` on the
16-bit `int` gives -32768, not 32768. (2) From cursor 37 (reached by Down from the
bottom row, then Right) with counter 0, the key 'x', which `handleKey` maps to delta 0,
sets the cursor to `clamp(0, 37, 36) = 36`, so the counter becomes 1. -/
theorem C9_counterexample :
    (mainLoop ⟨(List.replicate 36 0).set 17 1, List.replicate 36 0, 16, 32767⟩ 100 0 =
        some (⟨(List.replicate 36 0).set 17 2, List.replicate 36 0, 17, -32768⟩,
          Status.running) ∧
      (17 : Int) ≠ 16 ∧ (-32768 : Int) ≠ 32767 + 1) ∧
    (handleKey 120 0 = 0 ∧
      mainLoop ⟨List.replicate 36 0, List.replicate 36 1, 37, 0⟩ 120 0 =
        some (⟨List.replicate 36 0, List.replicate 36 1, 36, 1⟩, Status.running) ∧
      (1 : Int) ≠ 0) := by
  decide

/-- C9, amended (move counting). (1) One pass through the loop of `main` for a non-quit
key, from a state with two 36-cell boards and a cursor in 0..41 (the cursors the loop can
reach): the pass completes, the cursor is the one `moveCursor` computes, and the counter
is incremented by 1 in 16-bit `int` arithmetic if that cursor differs from the cursor
before, and is unchanged otherwise; the increment is exactly +1 for a counter below
32767 and gives -32768 from 32767. The boards keep 36 cells and the cursor stays in
0..41. (2) A key that maps to delta 0 leaves a cursor in 0..36 where it is. (3) From
cursor 0 with counter 0, a pass for Up and a pass for Left each leave the whole state,
so cursor 0 and counter 0, as it was. -/
theorem C9_move_counting_int16 :
    (∀ (s : State) (k ext : Int), s.leftboard.length = 36 → s.rightboard.length = 36 →
      0 ≤ s.cursor → s.cursor ≤ 41 → k ≠ 113 → k ≠ 27 →
      ∃ s' st, mainLoop s k ext = some (s', st) ∧
        s'.cursor = cursorAfter s.cursor (handleKey k ext) ∧
        s'.moves = (if s'.cursor ≠ s.cursor then wrap16 (s.moves + 1) else s.moves) ∧
        (-32768 ≤ s.moves → s.moves < 32767 →
          s'.moves = (if s'.cursor ≠ s.cursor then s.moves + 1 else s.moves)) ∧
        (s.moves = 32767 → s'.cursor ≠ s.cursor → s'.moves = -32768) ∧
        s'.leftboard.length = 36 ∧ s'.rightboard.length = 36 ∧
        0 ≤ s'.cursor ∧ s'.cursor ≤ 41) ∧
    (∀ c : Int, 0 ≤ c → c ≤ 36 → cursorAfter c 0 = c) ∧
    (∀ (lb rb : List Nat) (kU eU kL eL : Int), lb.length = 36 → rb.length = 36 →
      kU ≠ 113 → kU ≠ 27 → kL ≠ 113 → kL ≠ 27 →
      handleKey kU eU = -6 → handleKey kL eL = -1 →
      ∃ st1 st2, mainLoop ⟨lb, rb, 0, 0⟩ kU eU = some (⟨lb, rb, 0, 0⟩, st1) ∧
        mainLoop ⟨lb, rb, 0, 0⟩ kL eL = some (⟨lb, rb, 0, 0⟩, st2)) := by
  refine ⟨?_, ?_, ?_⟩
  · intro s k ext hl hr h0 h1 hq1 hq2
    obtain ⟨s', st, h, hc, hmv, hl', hr', -⟩ := mainLoop_spec s k ext hl hr h0 h1 ⟨hq1, hq2⟩
    have hreach := cursorAfter_reach s.cursor (handleKey k ext) h0 h1
    refine ⟨s', st, h, hc, hmv, ?_, ?_, hl', hr', by rw [hc]; exact hreach.1,
      by rw [hc]; exact hreach.2⟩
    · intro hlo hhi
      rw [hmv, wrap16_id (s.moves + 1) (by omega) (by omega)]
    · intro h32 hne
      rw [hmv, if_pos hne, h32]
      decide
  · intro c h0 h1
    unfold cursorAfter
    rw [wrap16_id (c + 0) (by omega) (by omega)]
    unfold clamp
    simp only [show ((0 : Int) = 1) = False from by decide,
      show ((0 : Int) = -1) = False from by decide, if_false]
    split_ifs <;> omega
  · intro lb rb kU eU kL eL hl hr hU1 hU2 hL1 hL2 hU hL
    have hz0 : (0 : Int) ≤ 0 := le_refl 0
    have hz1 : (0 : Int) ≤ 41 := by decide
    have hu : cursorAfter 0 (-6) = 0 := by decide
    have hd : cursorAfter 0 (-1) = 0 := by decide
    obtain ⟨s1, st1, h1, hc1, -, -, -, hs1⟩ := mainLoop_spec ⟨lb, rb, 0, 0⟩ kU eU hl hr
      hz0 hz1 ⟨hU1, hU2⟩
    obtain ⟨s2, st2, h2, hc2, -, -, -, hs2⟩ := mainLoop_spec ⟨lb, rb, 0, 0⟩ kL eL hl hr
      hz0 hz1 ⟨hL1, hL2⟩
    rw [hU] at hc1
    rw [hL] at hc2
    rw [hs1 (by rw [hc1]; exact hu)] at h1
    rw [hs2 (by rw [hc2]; exact hd)] at h2
    exact ⟨st1, st2, h1, h2⟩

/-- Instance of the amended C9: the key 's' from `bottomRowState` (Down from cell 30,
which takes the cursor to 36 and counts), a delta 0 at cursor 16, and the keys 'w' then
'a' from cursor 0 with counter 0 on the boards of `sampleState`. -/
theorem C9_move_counting_int16_witness :
    (∃ s' st, mainLoop bottomRowState 115 0 = some (s', st) ∧
      s'.cursor = cursorAfter bottomRowState.cursor (handleKey 115 0) ∧
      s'.moves = (if s'.cursor ≠ bottomRowState.cursor then wrap16 (bottomRowState.moves + 1)
        else bottomRowState.moves) ∧
      (-32768 ≤ bottomRowState.moves → bottomRowState.moves < 32767 →
        s'.moves = (if s'.cursor ≠ bottomRowState.cursor then bottomRowState.moves + 1
          else bottomRowState.moves)) ∧
      (bottomRowState.moves = 32767 → s'.cursor ≠ bottomRowState.cursor →
        s'.moves = -32768) ∧
      s'.leftboard.length = 36 ∧ s'.rightboard.length = 36 ∧
      0 ≤ s'.cursor ∧ s'.cursor ≤ 41) ∧
    cursorAfter 16 0 = 16 ∧
    (∃ st1 st2,
      mainLoop ⟨sampleState.leftboard, sampleState.rightboard, 0, 0⟩ 119 0 =
        some (⟨sampleState.leftboard, sampleState.rightboard, 0, 0⟩, st1) ∧
      mainLoop ⟨sampleState.leftboard, sampleState.rightboard, 0, 0⟩ 97 0 =
        some (⟨sampleState.leftboard, sampleState.rightboard, 0, 0⟩, st2)) :=
  ⟨C9_move_counting_int16.1 bottomRowState 115 0 (by decide) (by decide) (by decide)
      (by decide) (by decide) (by decide),
   C9_move_counting_int16.2.1 16 (by decide) (by decide),
   C9_move_counting_int16.2.2 sampleState.leftboard sampleState.rightboard 119 0 97 0
      (by decide) (by decide) (by decide) (by decide) (by decide) (by decide)
      (by decide) (by decide)⟩

/-- C10 as stated fails in two ways. (1) `sampleState`: the boards are equal except at
index 17 (left 1, right 0) and the cursor is on cell 16 of colour 0; moving Right onto 17
sets `left[17]` to the third colour 2, which is not `right[17]`, and `boardsEqual`
returns 0. (2) `wrapState`: from cell 18 the delta onto 17 is -1, but 18 is the first
cell of its row, so the cursor stays on 18, the board is unchanged and `boardsEqual`
returns 0. -/
theorem C10_counterexample :
    (validBoard sampleState.leftboard ∧ validBoard sampleState.rightboard ∧
      (∀ i, i < 36 → i ≠ 17 → sampleState.leftboard[i]? = sampleState.rightboard[i]?) ∧
      sampleState.leftboard[17]? ≠ sampleState.rightboard[17]? ∧
      sampleState.cursor = 16 ∧
      peek sampleState.leftboard 16 ≠ peek sampleState.leftboard 17 ∧
      moveCursor sampleState (17 - 16) =
        some (16, ⟨(List.replicate 36 0).set 17 2, List.replicate 36 0, 17, 0⟩) ∧
      boardsEqual ((List.replicate 36 0).set 17 2) (List.replicate 36 0) = some 0) ∧
    (validBoard wrapState.leftboard ∧ validBoard wrapState.rightboard ∧
      (∀ i, i < 36 → i ≠ 17 → wrapState.leftboard[i]? = wrapState.rightboard[i]?) ∧
      wrapState.leftboard[17]? ≠ wrapState.rightboard[17]? ∧
      wrapState.cursor = 18 ∧
      peek wrapState.leftboard 18 ≠ peek wrapState.leftboard 17 ∧
      moveCursor wrapState (17 - 18) = some (18, wrapState) ∧
      boardsEqual wrapState.leftboard wrapState.rightboard = some 0) := by
  decide

theorem peek_natCast (b : List Nat) (i : Nat) : peek b (i : Int) = b[i]? := by
  simp [peek]

theorem moveCursor_onto_17 (left right : List Nat) (c moves : Int)
    (hvl : validBoard left) (hvr : validBoard right)
    (heq : ∀ i, i < 36 → i ≠ 17 → left[i]? = right[i]?)
    (h0 : 0 ≤ c) (h1 : c ≤ 35) (hto : cursorAfter c (17 - c) = 17)
    (hcol : peek left c ≠ peek left 17)
    (hr1 : peek right 17 ≠ peek left 17) (hr2 : peek right 17 ≠ peek left c) :
    ∃ s' x y v, moveCursor ⟨left, right, c, moves⟩ (17 - c) = some (c, s') ∧
      s'.cursor = 17 ∧ peek left c = some x ∧ peek left 17 = some y ∧
      peek s'.leftboard 17 = some v ∧ (v : Int) = 3 - (x : Int) - (y : Int) ∧
      s'.rightboard = right ∧ boardsEqual s'.leftboard s'.rightboard = some 1 := by
  obtain ⟨x, y, hx, hxm, hy, hym, hm⟩ :=
    moveCursor_in_range ⟨left, right, c, moves⟩ (17 - c) hvl.1 h0 h1
      (by show cursorAfter c (17 - c) ≤ 35; rw [hto]; decide)
  simp only [hto] at hy hm
  have hyx : y ≠ x := by
    intro h; apply hcol; rw [hx, hy, h]
  obtain ⟨t1, t2, t3, t4, t5⟩ := toByte_third x y (hvl.2 x hxm) (hvl.2 y hym) hyx
  obtain ⟨z, hz, hzm⟩ := peek_of_lt right 17 (by decide) (by rw [hvr.1]; decide)
  have hzv : z = toByte (3 - (x : Int) - (y : Int)) := by
    apply t5 z (hvr.2 z hzm)
    · intro h; apply hr2; rw [hz, hx, h]
    · intro h; apply hr1; rw [hz, hy, h]
  have h17 : ((17 : Int)).toNat = 17 := by decide
  have hset : left.set 17 (toByte (3 - (x : Int) - (y : Int))) = right := by
    apply List.ext_getElem?
    intro i
    by_cases hi : i = 17
    · subst hi
      rw [List.getElem?_set_self (by rw [hvl.1]; decide)]
      have hz2 : right[17]? = some z := by
        have := peek_natCast right 17
        rw [← this]; exact hz
      rw [hz2, hzv]
    · rw [List.getElem?_set_ne (fun h => hi h.symm)]
      by_cases hlt : i < 36
      · exact heq i hlt hi
      · rw [List.getElem?_eq_none (by rw [hvl.1]; omega),
          List.getElem?_eq_none (by rw [hvr.1]; omega)]
  simp only [ne_eq, hyx, not_false_eq_true, if_true, h17, hset] at hm
  refine ⟨_, x, y, toByte (3 - (x : Int) - (y : Int)), hm, rfl, hx, hy, ?_, t1, rfl, ?_⟩
  · show peek right 17 = some (toByte (3 - (x : Int) - (y : Int)))
    rw [hz, hzv]
  · exact boardsEqual_self right hvr.1

/-- C10, amended (end-to-end scenario 4). For every pair of boards with cells in {0,1,2}
that are equal at every index other than 17 and whose cells at 17 differ, and every
cursor on 11, 23 or 16 (the cells from which a move reaches 17) whose left-board colour
differs from `left[17]` and from `right[17]`: moving the cursor onto index 17 with
`moveCursor` returns, puts the cursor on 17, sets `left[17]` to the third colour
`3 - left[from] - left[17]`, leaves the right board as it was, and `boardsEqual(left,
right)` is then 1 (true). -/
theorem C10_move_onto_17_wins (left right : List Nat) (c moves : Int)
    (hvl : validBoard left) (hvr : validBoard right)
    (heq : ∀ i, i < 36 → i ≠ 17 → left[i]? = right[i]?)
    (hc : c = 11 ∨ c = 23 ∨ c = 16)
    (hcol : peek left c ≠ peek left 17)
    (hr1 : peek right 17 ≠ peek left 17) (hr2 : peek right 17 ≠ peek left c) :
    ∃ s' x y v, moveCursor ⟨left, right, c, moves⟩ (17 - c) = some (c, s') ∧
      s'.cursor = 17 ∧ peek left c = some x ∧ peek left 17 = some y ∧
      peek s'.leftboard 17 = some v ∧ (v : Int) = 3 - (x : Int) - (y : Int) ∧
      s'.rightboard = right ∧ boardsEqual s'.leftboard s'.rightboard = some 1 := by
  rcases hc with rfl | rfl | rfl
  · exact moveCursor_onto_17 left right 11 moves hvl hvr heq (by decide) (by decide)
      (by decide) hcol hr1 hr2
  · exact moveCursor_onto_17 left right 23 moves hvl hvr heq (by decide) (by decide)
      (by decide) hcol hr1 hr2
  · exact moveCursor_onto_17 left right 16 moves hvl hvr heq (by decide) (by decide)
      (by decide) hcol hr1 hr2

/-- Instance of the amended C10: left board all 0 except colour 1 at 17, right board all
0 except colour 2 at 17, cursor on 16. -/
theorem C10_move_onto_17_wins_witness :
    ∃ s' x y v,
      moveCursor ⟨(List.replicate 36 0).set 17 1, (List.replicate 36 0).set 17 2, 16, 0⟩
        (17 - 16) = some (16, s') ∧
      s'.cursor = 17 ∧ peek ((List.replicate 36 0).set 17 1) 16 = some x ∧
      peek ((List.replicate 36 0).set 17 1) 17 = some y ∧
      peek s'.leftboard 17 = some v ∧ (v : Int) = 3 - (x : Int) - (y : Int) ∧
      s'.rightboard = (List.replicate 36 0).set 17 2 ∧
      boardsEqual s'.leftboard s'.rightboard = some 1 :=
  C10_move_onto_17_wins ((List.replicate 36 0).set 17 1) ((List.replicate 36 0).set 17 2)
    16 0 (by decide) (by decide) (by decide) (Or.inr (Or.inr rfl)) (by decide) (by decide)
    (by decide)

end Matricks
